import Mathlib

/-!
A shallow embedding of labelmaker's ml package (ml.go): the weighted
Distribution with its recursive cumulative-sample search, the decision
stumper, decision stumps, and the AdaBoost.MH orchestrator.
Floating-point numbers are modelled by rationals; the transcendental
primitives math.Sqrt / math.Log / math.Exp are taken as parameters of
the definitions that use them, since none of the verified properties
depend on their analytic values.
-/

namespace ml

/-- Outcome of one call of the Go function search: a returned index, the
"Search did not find a valid index" panic, or an out-of-range slice
access (a Go runtime panic distinct from the invariant message). -/
inductive SearchResult where
  | found (i : Nat)
  | invariantViolation
  | indexOutOfRange
  deriving DecidableEq

/-- Embedding of the recursive Go function search (ml.go), with explicit
fuel: result none means the recursion has not terminated within the
given fuel, so the Go original recurses at least that deep.  The base
case evaluates cumulative[0] first and then short-circuits exactly like
the Go condition
s <= cumulative[0] && (startInclusive == 0 || cumulative[startInclusive-1] < s). -/
def searchFuel (s : ℚ) (cumulative : List ℚ) : Nat → Nat → Nat → Option SearchResult
  | 0, _, _ => none
  | fuel + 1, startInclusive, endExclusive =>
    if startInclusive = endExclusive then
      match cumulative.get? 0 with
      | none => some .indexOutOfRange
      | some c0 =>
        if s ≤ c0 then
          if startInclusive = 0 then
            some (.found startInclusive)
          else
            match cumulative.get? (startInclusive - 1) with
            | none => some .indexOutOfRange
            | some cPrev =>
              if cPrev < s then some (.found startInclusive)
              else some .invariantViolation
        else some .invariantViolation
    else
      let mid := startInclusive + (endExclusive - startInclusive) / 2
      match cumulative.get? mid with
      | none => some .indexOutOfRange
      | some cMid =>
        if s < cMid then searchFuel s cumulative fuel startInclusive mid
        else searchFuel s cumulative fuel mid endExclusive

/-- The prefix-sum loop of Distribution.Sample (sum accumulator running
over the weights, recording each partial sum). -/
def cumulativeFrom (sum : ℚ) : List ℚ → List ℚ
  | [] => []
  | p :: ps => (sum + p) :: cumulativeFrom (sum + p) ps

/-- Cumulative array built by Distribution.Sample from the weights P. -/
def cumulativeOf (P : List ℚ) : List ℚ := cumulativeFrom 0 P

/-- Embedding of Distribution.Sample: P is the field Distribution.P and
s stands for the draw r.Float64(); Sample calls
search(s, cumulative, 0, len(cumulative)). -/
def sampleFuel (P : List ℚ) (s : ℚ) (fuel : Nat) : Option SearchResult :=
  searchFuel s (cumulativeOf P) fuel 0 (cumulativeOf P).length

/-- Go type Label (a string). -/
abbrev Label := String

/-- Go interface Example: the two capabilities Labels() and
HasLabel(Label).  The two are kept independent, as in Go, where an
implementation could answer them separately. -/
structure Example where
  labels : List Label
  hasLabel : Label → Bool

/-- Go interface Feature: String() and Test(Example). -/
structure Feature where
  str : String
  test : Example → Bool

/-- The label-collection loop of NewDecisionStumper: a set of all labels
occurring in the examples, modelled as a duplicate-free list in first
encounter order (Go uses a map; rational arithmetic below is insensitive
to the enumeration order). -/
def collectLabels (es : List Example) : List Label :=
  es.foldl (fun acc e =>
    e.labels.foldl (fun acc l => if acc.contains l then acc else acc ++ [l]) acc) []

/-- Go struct DecisionStumper. -/
structure DecisionStumper where
  labels : List Label
  features : List Feature
  examples : List Example

/-- Embedding of NewDecisionStumper: collects the labels of the examples
and stores everything; there is no validation of any kind. -/
def NewDecisionStumper (fs : List Feature) (es : List Example) : DecisionStumper :=
  { labels := collectLabels es, features := fs, examples := es }

/-- Go struct DecisionStump.  The field feature is an Option because the
Go field holds a nil interface when NewStump never finds a feature with
a score below math.MaxFloat64 (in particular when the feature list is
empty); c is the confidence map. -/
structure DecisionStump where
  feature : Option Feature
  c : List (Label × ℚ)
  zt : ℚ

/-- Go map read d.c[l]: the stored confidence, or the zero value 0.0
when the label has no entry. -/
def cLookup (c : List (Label × ℚ)) (l : Label) : ℚ :=
  match c.find? (fun p => p.1 == l) with
  | some p => p.2
  | none => 0

/-- Embedding of DecisionStump.Predict.  When feature is none the Go
original dereferences a nil interface and crashes; that branch is given
the value 0 here and is never relied upon by any theorem (all of them
assume a present feature or never reach this branch). -/
def DecisionStump.Predict (d : DecisionStump) (e : Example) (l : Label) : ℚ :=
  match d.feature with
  | none => 0
  | some f => if f.test e then cLookup d.c l else -1

/-- math.MaxFloat64 as an exact rational: (2^53 - 1) * 2^971
= 2^1024 - 2^971, written as a numeral so that it evaluates cheaply. -/
def maxFloat64 : ℚ := ((0xfffffffffffff800000000000000000000000000000000000000000000000000000000000000000000000000000000000000000000000000000000000000000000000000000000000000000000000000000000000000000000000000000000000000000000000000000000000000000000000000000000000000000000000000 : Nat) : ℚ)

/-- The accumulated weight w[key{b, f, l}] after NewStump's first loop:
the sum, over examples the feature tests true on, of the label's
distribution weight at the example's index, restricted to examples whose
HasLabel(l) equals b.  (The Go map is initialised to 0.0 and only added
to, so its final entry is exactly this fold; re-scanning a duplicate
feature value first resets and then recomputes the same entry.) -/
def W (st : DecisionStumper) (ds : Label → List ℚ) (b : Bool) (f : Feature) (l : Label) : ℚ :=
  st.examples.enum.foldl
    (fun acc q =>
      if f.test q.2 then
        (if q.2.hasLabel l == b then acc + (ds l).getD q.1 0 else acc)
      else acc) 0

/-- The map lookup w[key{b, fMin, l}] used when computing confidences:
when fMin is nil the key was never inserted, so Go returns the zero
value 0.0. -/
def Wopt (st : DecisionStumper) (ds : Label → List ℚ) (b : Bool) :
    Option Feature → Label → ℚ
  | some f, l => W st ds b f l
  | none, _ => 0

/-- The per-feature score zFeature of NewStump:
the sum over labels of sqrt (W+ * W-). -/
def Zf (sq : ℚ → ℚ) (st : DecisionStumper) (ds : Label → List ℚ) (f : Feature) : ℚ :=
  st.labels.foldl (fun acc l => acc + sq (W st ds true f l * W st ds false f l)) 0

/-- One iteration of NewStump's selection loop over features; the
accumulator is (fMin, zMin, zt). -/
def stumpStep (sq : ℚ → ℚ) (st : DecisionStumper) (ds : Label → List ℚ)
    (acc : Option Feature × ℚ × ℚ) (f : Feature) : Option Feature × ℚ × ℚ :=
  let zFeature := Zf sq st ds f
  if zFeature < acc.2.1 then (some f, zFeature, acc.2.2 + zFeature)
  else (acc.1, acc.2.1, acc.2.2 + zFeature)

/-- Embedding of DecisionStumper.NewStump, parametric in sqrt and log:
scans the features accumulating (fMin, zMin, zt) from
(nil, math.MaxFloat64, 0), doubles zt, and computes each label's
confidence 0.5 * log((1 + w[{true, fMin, l}]) / (1 + w[{false, fMin, l}])). -/
def NewStump (sq lg : ℚ → ℚ) (st : DecisionStumper) (ds : Label → List ℚ) : DecisionStump :=
  let sel := st.features.foldl (stumpStep sq st ds) (none, maxFloat64, 0)
  { feature := sel.1
    c := st.labels.map (fun l =>
      (l, (1 / 2 : ℚ) * lg ((1 + Wopt st ds true sel.1 l) / (1 + Wopt st ds false sel.1 l))))
    zt := 2 * sel.2.2 }

/-- Go struct AdaBoostMH.  The per-label distribution map D is modelled
as a function from labels to weight lists; labels outside the stumper's
label set map to [] (in Go such a lookup yields nil and any use would
crash; no reachable code path reads them). -/
structure AdaBoostMH where
  Examples : List Example
  Stumper : DecisionStumper
  D : Label → List ℚ
  H : List DecisionStump

/-- Embedding of UniformDistribution: n weights, each 1/n. -/
def uniformDistribution (nitems : Nat) : List ℚ :=
  List.replicate nitems (1 / (nitems : ℚ))

/-- Embedding of NewAdaBoostMH: a uniform distribution per observed
label, an empty ensemble. -/
def NewAdaBoostMH (es : List Example) (learner : DecisionStumper) : AdaBoostMH :=
  { Examples := es
    Stumper := learner
    D := fun l => if l ∈ learner.labels then uniformDistribution es.length else []
    H := [] }

/-- Embedding of the Go helper hasLabel: +1.0 when the example carries
the label, -1.0 otherwise. -/
def hasLabelSign (e : Example) (l : Label) : ℚ :=
  if e.hasLabel l then 1 else -1

/-- Embedding of AdaBoostMH.Round, parametric in sqrt, log and exp:
obtains the stump from the stumper against the current distributions,
then for every known label mutates the label's weight list in place,
multiplying entry i by exp(hasLabel(example_i, l) * h.Predict(example_i, l)) / h.zt,
and appends the stump to the ensemble. -/
def Round (sq lg ex : ℚ → ℚ) (a : AdaBoostMH) : AdaBoostMH :=
  let h := NewStump sq lg a.Stumper a.D
  { Examples := a.Examples
    Stumper := a.Stumper
    D := fun label =>
      if label ∈ a.Stumper.labels then
        a.Examples.enum.foldl
          (fun P q =>
            P.set q.1
              (P.getD q.1 0 *
                (ex (hasLabelSign q.2 label * h.Predict q.2 label) / h.zt)))
          (a.D label)
      else a.D label
    H := a.H ++ [h] }

/-- Embedding of AdaBoostMH.Predict: the sum of every ensemble member's
prediction, accumulated from 0.0 in ensemble order. -/
def AdaBoostMH.Predict (a : AdaBoostMH) (e : Example) (l : Label) : ℚ :=
  a.H.foldl (fun sum h => sum + h.Predict e l) 0

/-- Embedding of AdaBoostMH.Evaluate: iterates test examples and the
stumper's labels, skipping a pair exactly when Predict > 0 and the
example has the label, and counting every other pair. -/
def AdaBoostMH.Evaluate (a : AdaBoostMH) (test : List Example) : Nat :=
  test.foldl (fun dist e =>
    a.Stumper.labels.foldl (fun dist l =>
      if 0 < a.Predict e l ∧ e.hasLabel l then dist else dist + 1) dist) 0

/-- The Hamming distance as the spec words it, written from the spec for
comparison with Evaluate: the count over test examples and known labels
of pairs where the predicate (Predict > 0) disagrees with the example's
true label membership. -/
def specHammingDistance (a : AdaBoostMH) (test : List Example) : Nat :=
  test.foldl (fun dist e =>
    a.Stumper.labels.foldl (fun dist l =>
      if (decide (0 < a.Predict e l)) ≠ e.hasLabel l then dist + 1 else dist) dist) 0

/-- An exact rational stand-in used to instantiate the sqrt parameter in
concrete witnesses: exact on squares of naturals-over-naturals, and in
particular ratSqrt 0 = 0 and ratSqrt 1 = 1, agreeing with math.Sqrt at
every point the witnesses evaluate it. -/
def ratSqrt (q : ℚ) : ℚ := (Nat.sqrt q.num.toNat : ℚ) / (Nat.sqrt q.den : ℚ)

/-- A rational stand-in instantiating the log parameter in concrete
witnesses; no theorem depends on its analytic values. -/
def ratLog (q : ℚ) : ℚ := q - 1

/-- A rational stand-in instantiating the exp parameter in concrete
witnesses; no theorem depends on its analytic values. -/
def ratExp (q : ℚ) : ℚ := 1 + q

/-- A fixture: an example carrying exactly the label "A". -/
def exA : Example := ⟨["A"], fun l => l == "A"⟩

/-- A fixture: an example carrying no label at all. -/
def exNone : Example := ⟨[], fun _ => false⟩

/-- A fixture: a feature that tests true on every example. -/
def featTrue : Feature := ⟨"always true", fun _ => true⟩

/-- A fixture: a feature that tests false on every example. -/
def featFalse : Feature := ⟨"always false", fun _ => false⟩

/-- A fixture stumper over one feature and the one example exA; its
label set is ["A"]. -/
def stW : DecisionStumper := NewDecisionStumper [featTrue] [exA]

/-- A fixture orchestrator over the fixture stumper, fresh from
NewAdaBoostMH (one training example, uniform distribution [1]). -/
def aW : AdaBoostMH := NewAdaBoostMH [exA] stW

/-- A fixture stump whose feature tests false on every example. -/
def dFalse : DecisionStump := ⟨some featFalse, [("A", 7)], 3⟩

/-- Reading an index other than the one just written is unaffected by
List.set. -/
theorem getD_set_ne (L : List ℚ) (j i : Nat) (v : ℚ) (h : j ≠ i) :
    (L.set j v).getD i 0 = L.getD i 0 := by
  induction L generalizing j i with
  | nil => rfl
  | cons a L ih =>
      cases j with
      | zero =>
          cases i with
          | zero => exact absurd rfl h
          | succ i => rfl
      | succ j =>
          cases i with
          | zero => rfl
          | succ i => exact ih j i fun hji => h (congrArg Nat.succ hji)

/-- Reading the index just written yields the written value when the
index is in range. -/
theorem getD_set_self (L : List ℚ) (j : Nat) (v : ℚ) (h : j < L.length) :
    (L.set j v).getD j 0 = v := by
  induction L generalizing j with
  | nil => exact absurd h (Nat.not_lt_zero j)
  | cons a L ih =>
      cases j with
      | zero => rfl
      | succ j => exact ih j (Nat.lt_of_succ_lt_succ h)

/-- A fold writing only at indices above i leaves position i unchanged. -/
theorem foldl_set_getD_lt (g : Nat → Example → ℚ → ℚ) (i : Nat) :
    ∀ (ps : List (Nat × Example)) (L : List ℚ),
      (∀ q ∈ ps, i < q.1) →
      ((ps.foldl (fun P q => P.set q.1 (g q.1 q.2 (P.getD q.1 0))) L).getD i 0) = L.getD i 0 := by
  intro ps
  induction ps with
  | nil => intro L _; rfl
  | cons q ps ih =>
      intro L h
      rw [List.foldl_cons, ih _ fun q2 hq2 => h q2 (List.mem_cons_of_mem _ hq2),
        getD_set_ne _ _ _ _ (ne_of_gt (h q (List.mem_cons_self _ _)))]

/-- Every index produced by List.enumFrom k is at least k. -/
theorem le_fst_of_mem_enumFrom :
    ∀ (es : List Example) (k : Nat) (q : Nat × Example),
      q ∈ List.enumFrom k es → k ≤ q.1 := by
  intro es
  induction es with
  | nil => intro k q h; exact absurd h (List.not_mem_nil q)
  | cons e es ih =>
      intro k q h
      rcases List.mem_cons.mp h with h1 | h1
      · subst h1; exact le_refl k
      · exact Nat.le_of_succ_le (ih (k + 1) q h1)

/-- The in-place update loop of Round, written as a fold over the
enumerated examples from index k: each listed position is set exactly
once using its original value, so position k+i ends up holding the
update of its original content. -/
theorem foldl_set_enumFrom_getD (g : Nat → Example → ℚ → ℚ) :
    ∀ (es : List Example) (k : Nat) (L : List ℚ) (i : Nat) (e : Example),
      es.get? i = some e → k + es.length ≤ L.length →
      ((List.enumFrom k es).foldl
          (fun P q => P.set q.1 (g q.1 q.2 (P.getD q.1 0))) L).getD (k + i) 0
        = g (k + i) e (L.getD (k + i) 0) := by
  intro es
  induction es with
  | nil => intro k L i e he _; exact absurd he (by simp)
  | cons e0 es ih =>
      intro k L i e he hlen
      have hk : k < L.length := by
        simp only [List.length_cons] at hlen
        omega
      cases i with
      | zero =>
          have he0 : e0 = e := by simpa using he
          subst he0
          rw [Nat.add_zero]
          show ((List.enumFrom (k + 1) es).foldl
            (fun P q => P.set q.1 (g q.1 q.2 (P.getD q.1 0)))
            (L.set k (g k e0 (L.getD k 0)))).getD k 0 = g k e0 (L.getD k 0)
          rw [foldl_set_getD_lt g k (List.enumFrom (k + 1) es) _
            (fun q hq => Nat.lt_of_succ_le (le_fst_of_mem_enumFrom es (k + 1) q hq)),
            getD_set_self L k _ hk]
      | succ j =>
          have he2 : es.get? j = some e := he
          have hidx : k + (j + 1) = (k + 1) + j := by omega
          rw [hidx]
          show ((List.enumFrom (k + 1) es).foldl
            (fun P q => P.set q.1 (g q.1 q.2 (P.getD q.1 0)))
            (L.set k (g k e0 (L.getD k 0)))).getD ((k + 1) + j) 0
            = g ((k + 1) + j) e (L.getD ((k + 1) + j) 0)
          have hlen2 : (k + 1) + es.length ≤ (L.set k (g k e0 (L.getD k 0))).length := by
            rw [List.length_set]
            simp only [List.length_cons] at hlen
            omega
          rw [ih (k + 1) _ j e he2 hlen2,
            getD_set_ne L k ((k + 1) + j) _ (by omega)]

/-- Specialisation to List.enum (= enumFrom 0), the shape used by
Round. -/
theorem foldl_set_enum_getD (g : Nat → Example → ℚ → ℚ) (es : List Example) (L : List ℚ)
    (i : Nat) (e : Example) (he : es.get? i = some e) (hlen : es.length ≤ L.length) :
    ((es.enum.foldl (fun P q => P.set q.1 (g q.1 q.2 (P.getD q.1 0))) L).getD i 0)
      = g i e (L.getD i 0) := by
  have h := foldl_set_enumFrom_getD g es 0 L i e he (by simpa using hlen)
  simpa [List.enum] using h

/-- The zt component of NewStump's selection fold is the plain sum of
the per-feature scores, independent of the minimum-tracking. -/
theorem stumpFold_zt (sq : ℚ → ℚ) (st : DecisionStumper) (ds : Label → List ℚ) :
    ∀ (fs : List Feature) (acc : Option Feature × ℚ × ℚ),
      (fs.foldl (stumpStep sq st ds) acc).2.2
        = fs.foldl (fun z f => z + Zf sq st ds f) acc.2.2 := by
  intro fs
  induction fs with
  | nil => intro acc; rfl
  | cons f fs ih =>
      intro acc
      rw [List.foldl_cons, List.foldl_cons, ih]
      have h2 : (stumpStep sq st ds acc f).2.2 = acc.2.2 + Zf sq st ds f := by
        simp only [stumpStep]
        split <;> rfl
      rw [h2]

/-- Looking up a label in an association list built by mapping over a
label list yields the mapped value, for any member label (the label
lists in this development are duplicate-free, and the mapped value is a
function of the label alone, so the first hit is the right one). -/
theorem cLookup_map (g : Label → ℚ) :
    ∀ (ls : List Label) (l : Label), l ∈ ls →
      cLookup (ls.map fun x => (x, g x)) l = g l := by
  intro ls
  induction ls with
  | nil => intro l h; exact absurd h (List.not_mem_nil l)
  | cons x ls ih =>
      intro l h
      by_cases hx : x = l
      · subst hx
        simp [cLookup, List.find?]
      · have hl : l ∈ ls := by
          rcases List.mem_cons.mp h with h1 | h1
          · exact absurd h1.symm hx
          · exact h1
        have hbeq : (x == l) = false := beq_eq_false_iff_ne.mpr hx
        have hstep : cLookup ((x :: ls).map fun y => (y, g y)) l
            = cLookup (ls.map fun y => (y, g y)) l := by
          simp [cLookup, List.find?, hbeq]
        rw [hstep]
        exact ih l hl

/-- List.getD with default 0 is non-negative on a list of non-negative
entries. -/
theorem getD_nonneg (L : List ℚ) (h : ∀ x ∈ L, 0 ≤ x) (i : Nat) : 0 ≤ L.getD i 0 := by
  induction L generalizing i with
  | nil => exact le_refl 0
  | cons a L ih =>
      cases i with
      | zero => exact h a (List.mem_cons_self a L)
      | succ i => exact ih (fun x hx => h x (List.mem_cons_of_mem a hx)) i

/-- The accumulated weights W are non-negative whenever the label's
distribution weights are. -/
theorem W_nonneg (st : DecisionStumper) (ds : Label → List ℚ) (b : Bool) (f : Feature)
    (l : Label) (h : ∀ x ∈ ds l, 0 ≤ x) : 0 ≤ W st ds b f l := by
  have key : ∀ (ps : List (Nat × Example)) (acc : ℚ), 0 ≤ acc →
      0 ≤ ps.foldl
        (fun acc q =>
          if f.test q.2 then
            (if q.2.hasLabel l == b then acc + (ds l).getD q.1 0 else acc)
          else acc) acc := by
    intro ps
    induction ps with
    | nil => intro acc hacc; exact hacc
    | cons q ps ih =>
        intro acc hacc
        rw [List.foldl_cons]
        apply ih
        cases hft : f.test q.2 with
        | false => simpa [hft] using hacc
        | true =>
            cases hbl : q.2.hasLabel l == b with
            | false => simpa [hft, hbl] using hacc
            | true =>
                simp only [hft, hbl, if_true]
                exact add_nonneg hacc (getD_nonneg (ds l) h q.1)
  unfold W
  exact key st.examples.enum 0 le_rfl

/-- Claim C5, corrected part that holds: with non-negative distribution
weights, the add-one smoothing makes the confidence computation's
divisor 1 + W- and the logarithm argument (1 + W+)/(1 + W-) strictly
positive, for every feature and label (in particular the selected
feature).  The other half of the claim — that the division of the
weight updates by zt in Round never divides by zero — is false; see the
counterexample newStump_zt_zero_on_nonempty. -/
theorem confidence_smoothing_wellDefined (st : DecisionStumper) (ds : Label → List ℚ)
    (f : Feature) (l : Label) (h : ∀ x ∈ ds l, 0 ≤ x) :
    0 < 1 + W st ds false f l
    ∧ 0 < (1 + W st ds true f l) / (1 + W st ds false f l) := by
  have hm : 0 ≤ W st ds false f l := W_nonneg st ds false f l h
  have hp : 0 ≤ W st ds true f l := W_nonneg st ds true f l h
  have h1 : 0 < 1 + W st ds false f l := by linarith
  have h2 : 0 < 1 + W st ds true f l := by linarith
  exact ⟨h1, div_pos h2 h1⟩

/-- Counterexample to claim C5 as stated: with one example carrying the
only label "A" and one feature testing true on it — all three sets
non-empty — every product W+ * W- vanishes, so zt = 0 and Round's
update divides each weight by zero. -/
theorem newStump_zt_zero_on_nonempty :
    (NewStump ratSqrt ratLog stW aW.D).zt = 0
    ∧ stW.examples.length = 1 ∧ stW.features.length = 1 ∧ stW.labels.length = 1 := by
  with_unfolding_all decide

/-- Witness for the corrected C5 at the fixture stumper: the uniform
one-example distribution is non-negative and both positivity conclusions
hold there. -/
theorem confidence_smoothing_wellDefined_witness :
    (∀ x ∈ aW.D "A", (0 : ℚ) ≤ x)
    ∧ 0 < 1 + W stW aW.D false featTrue "A"
    ∧ 0 < (1 + W stW aW.D true featTrue "A") / (1 + W stW aW.D false featTrue "A") :=
  ⟨by with_unfolding_all decide,
    (confidence_smoothing_wellDefined stW aW.D featTrue "A" (by with_unfolding_all decide)).1,
    (confidence_smoothing_wellDefined stW aW.D featTrue "A" (by with_unfolding_all decide)).2⟩

/-- Claim C6: Round computes one stump from the stumper against the
current distributions, replaces each weight D_l[i] with
D_l[i] * exp(y * h(example_i, l)) / zt — y being +1 when example i
carries l and -1 otherwise, h the new stump's Predict and zt its
normalization constant — and appends exactly that stump to the
ensemble. -/
theorem round_reweights_and_appends (sq lg ex : ℚ → ℚ) (a : AdaBoostMH) (l : Label)
    (hl : l ∈ a.Stumper.labels) (i : Nat) (e : Example)
    (he : a.Examples.get? i = some e)
    (hlen : a.Examples.length ≤ (a.D l).length) :
    ((Round sq lg ex a).D l).getD i 0
      = (a.D l).getD i 0
        * (ex (hasLabelSign e l * (NewStump sq lg a.Stumper a.D).Predict e l)
            / (NewStump sq lg a.Stumper a.D).zt)
    ∧ (Round sq lg ex a).H = a.H ++ [NewStump sq lg a.Stumper a.D] := by
  refine ⟨?_, rfl⟩
  have hD : (Round sq lg ex a).D l
      = a.Examples.enum.foldl
          (fun P q =>
            P.set q.1
              (P.getD q.1 0 *
                (ex (hasLabelSign q.2 l * (NewStump sq lg a.Stumper a.D).Predict q.2 l)
                  / (NewStump sq lg a.Stumper a.D).zt)))
          (a.D l) := by
    have hite : (Round sq lg ex a).D l
        = if l ∈ a.Stumper.labels then
            a.Examples.enum.foldl
              (fun P q =>
                P.set q.1
                  (P.getD q.1 0 *
                    (ex (hasLabelSign q.2 l * (NewStump sq lg a.Stumper a.D).Predict q.2 l)
                      / (NewStump sq lg a.Stumper a.D).zt)))
              (a.D l)
          else a.D l := rfl
    rw [hite, if_pos hl]
  rw [hD]
  exact foldl_set_enum_getD
    (fun _ e2 v =>
      v * (ex (hasLabelSign e2 l * (NewStump sq lg a.Stumper a.D).Predict e2 l)
        / (NewStump sq lg a.Stumper a.D).zt))
    a.Examples (a.D l) i e he hlen

/-- Witness for C6 at the fixture orchestrator (one example carrying
"A", one feature), all hypotheses discharged concretely. -/
theorem round_reweights_and_appends_witness :
    "A" ∈ aW.Stumper.labels
    ∧ aW.Examples.get? 0 = some exA
    ∧ aW.Examples.length ≤ (aW.D "A").length
    ∧ ((Round ratSqrt ratLog ratExp aW).D "A").getD 0 0
        = (aW.D "A").getD 0 0
          * (ratExp (hasLabelSign exA "A"
                * (NewStump ratSqrt ratLog aW.Stumper aW.D).Predict exA "A")
              / (NewStump ratSqrt ratLog aW.Stumper aW.D).zt)
    ∧ (Round ratSqrt ratLog ratExp aW).H
        = aW.H ++ [NewStump ratSqrt ratLog aW.Stumper aW.D] :=
  ⟨by decide, rfl, by with_unfolding_all decide,
    (round_reweights_and_appends ratSqrt ratLog ratExp aW "A" (by decide) 0 exA rfl
      (by with_unfolding_all decide)).1,
    (round_reweights_and_appends ratSqrt ratLog ratExp aW "A" (by decide) 0 exA rfl
      (by with_unfolding_all decide)).2⟩

/-- Claim C7: the normalization constant stored in the stump equals
2 times the sum of the per-feature scores Zf over all scanned features,
not only the selected one. -/
theorem newStump_zt_sums_all_features (sq lg : ℚ → ℚ) (st : DecisionStumper)
    (ds : Label → List ℚ) :
    (NewStump sq lg st ds).zt
      = 2 * st.features.foldl (fun z f => z + Zf sq st ds f) 0 := by
  have hz : (NewStump sq lg st ds).zt
      = 2 * (st.features.foldl (stumpStep sq st ds) (none, maxFloat64, 0)).2.2 := rfl
  rw [hz, stumpFold_zt]

/-- Claim C8: for the selected feature f* and every label known to the
stumper, the stored confidence is
0.5 * log((1 + W+[f*,l]) / (1 + W-[f*,l])), with W+ and W- the
label-weighted sums over examples on which f* tests true (abstaining
examples contribute to neither). -/
theorem newStump_confidence_formula (sq lg : ℚ → ℚ) (st : DecisionStumper)
    (ds : Label → List ℚ) (f : Feature) (l : Label)
    (hf : (NewStump sq lg st ds).feature = some f) (hl : l ∈ st.labels) :
    cLookup (NewStump sq lg st ds).c l
      = (1 / 2 : ℚ) * lg ((1 + W st ds true f l) / (1 + W st ds false f l)) := by
  have hc : (NewStump sq lg st ds).c
      = st.labels.map (fun x =>
          (x, (1 / 2 : ℚ) *
            lg ((1 + Wopt st ds true (NewStump sq lg st ds).feature x)
              / (1 + Wopt st ds false (NewStump sq lg st ds).feature x)))) := rfl
  rw [hc, cLookup_map _ st.labels l hl, hf]
  rfl

/-- Witness for C8 at the fixture stumper: the selected feature is the
single always-true feature and the formula evaluates there. -/
theorem newStump_confidence_formula_witness :
    (NewStump ratSqrt ratLog stW aW.D).feature = some featTrue
    ∧ "A" ∈ stW.labels
    ∧ cLookup (NewStump ratSqrt ratLog stW aW.D).c "A"
        = (1 / 2 : ℚ) * ratLog ((1 + W stW aW.D true featTrue "A")
            / (1 + W stW aW.D false featTrue "A")) :=
  ⟨by with_unfolding_all rfl, by decide,
    newStump_confidence_formula ratSqrt ratLog stW aW.D featTrue "A"
      (by with_unfolding_all rfl) (by decide)⟩

/-- Claim C1: the claim states that Evaluate returns the Hamming
distance over the example-by-label matrix (the number of pairs where
Predict > 0 disagrees with HasLabel).  It does not: the Go condition
skips a pair only when it is a true positive, so a true negative —
Predict non-positive and label absent, an agreement — is counted.  With
label set ["A"], an empty ensemble (Predict = 0 everywhere) and one test
example carrying no label, the Hamming distance as the spec defines it
is 0, but Evaluate returns 1. -/
theorem evaluate_miscounts_true_negative :
    aW.Evaluate [exNone] = 1 ∧ specHammingDistance aW [exNone] = 0 := by
  with_unfolding_all decide

/-- Claim C2: the claim states that for a valid cumulative distribution
and any draw in [0,1) the search terminates with the unique index i
such that cumulative[i-1] < s <= cumulative[i].  It does not terminate:
for the valid distribution [1/2, 1/2] (cumulative [1/2, 1]) and the
draw 3/4, whose unique claimed index is 1, the recursion reaches
search(3/4, [1/2, 1], 0, 1) which calls itself with identical
arguments, so no amount of fuel produces a result. -/
theorem search_diverges_on_valid_cumulative :
    ∀ fuel, sampleFuel [1/2, 1/2] (3/4) fuel = none := by
  have hloop : ∀ fuel, searchFuel (3/4) [1/2, 1] fuel 0 1 = none := by
    intro fuel
    induction fuel with
    | zero => rfl
    | succ n ih => exact (by with_unfolding_all rfl :
        searchFuel (3/4) [1/2, 1] (n+1) 0 1 = searchFuel (3/4) [1/2, 1] n 0 1) ▸ ih
  intro fuel
  cases fuel with
  | zero => rfl
  | succ n =>
      exact (by with_unfolding_all rfl :
        sampleFuel [1/2, 1/2] (3/4) (n+1) = searchFuel (3/4) [1/2, 1] n 0 1) ▸ hloop n

/-- Claim C3: the claim states that on a malformed cumulative array and
a draw outside every bucket the search reports the InvariantViolation
panic.  It does not: on the malformed array [1/2, 2/5] (decreasing, not
reaching 1) with draw 7/10 (no valid bucket) the recursion loops forever
on the interval [1, 2); and on the malformed array [2/5, 1/2] (does not
reach 1) with draw 0 (no bucket: 0 < 0 fails) it silently returns index
0 instead of panicking. -/
theorem search_never_reports_invariant_panic :
    (∀ fuel, searchFuel (7/10) [1/2, 2/5] fuel 0 2 = none)
    ∧ searchFuel 0 [2/5, 1/2] 3 0 2 = some (.found 0) := by
  constructor
  · have hloop : ∀ fuel, searchFuel (7/10) [1/2, 2/5] fuel 1 2 = none := by
      intro fuel
      induction fuel with
      | zero => rfl
      | succ n ih => exact (by with_unfolding_all rfl :
          searchFuel (7/10) [1/2, 2/5] (n+1) 1 2 = searchFuel (7/10) [1/2, 2/5] n 1 2) ▸ ih
    intro fuel
    cases fuel with
    | zero => rfl
    | succ n => exact (by with_unfolding_all rfl :
        searchFuel (7/10) [1/2, 2/5] (n+1) 0 2 = searchFuel (7/10) [1/2, 2/5] n 1 2) ▸ hloop n
  · with_unfolding_all decide

/-- Claim C4: the claim states that construction with an empty example,
feature, or label set is rejected eagerly with an InvalidInput error.
It is not: NewDecisionStumper performs no validation and happily returns
a stumper with all three sets empty, and NewStump on it then produces
exactly the stump with no feature (nil feature, empty confidence map,
zt = 0) that the spec says must be prevented. -/
theorem newDecisionStumper_accepts_empty :
    NewDecisionStumper [] [] = { labels := [], features := [], examples := [] }
    ∧ NewStump ratSqrt ratLog (NewDecisionStumper [] []) (fun _ => [])
        = { feature := none, c := [], zt := 0 } := by
  exact ⟨rfl, by with_unfolding_all rfl⟩

/-- Claim C9: for every example and label, a stump whose feature tests
false on the example predicts the fixed sentinel -1.0 regardless of
labels and stored confidences, and a stump whose feature tests true
returns the stored confidence for the label. -/
theorem stump_predict_sentinel_or_confidence (d : DecisionStump) (e : Example)
    (l : Label) (f : Feature) (hf : d.feature = some f) :
    d.Predict e l = if f.test e then cLookup d.c l else -1 := by
  simp [DecisionStump.Predict, hf]

/-- Witness for C9 at a concrete stump whose feature tests false: the
sentinel branch is exercised and yields -1 although the stored
confidence for "A" is 7. -/
theorem stump_predict_sentinel_or_confidence_witness :
    dFalse.feature = some featFalse
    ∧ dFalse.Predict exA "A" = if featFalse.test exA then cLookup dFalse.c "A" else -1 :=
  ⟨rfl, stump_predict_sentinel_or_confidence dFalse exA "A" featFalse rfl⟩

/-- Claim C10: with an empty ensemble — as right after NewAdaBoostMH —
AdaBoostMH.Predict returns exactly 0 for every example and label, and
since 0 is non-positive every label is predicted absent. -/
theorem predict_empty_ensemble_zero (a : AdaBoostMH) (e : Example) (l : Label)
    (h : a.H = []) :
    a.Predict e l = 0 ∧ ¬ (0 : ℚ) < a.Predict e l := by
  have hz : a.Predict e l = 0 := by
    unfold AdaBoostMH.Predict
    rw [h]
    rfl
  exact ⟨hz, by rw [hz]; exact lt_irrefl 0⟩

/-- Witness for C10 at the fixture orchestrator, whose ensemble is empty
by construction. -/
theorem predict_empty_ensemble_zero_witness :
    aW.H = [] ∧ aW.Predict exNone "A" = 0 ∧ ¬ (0 : ℚ) < aW.Predict exNone "A" :=
  ⟨rfl, (predict_empty_ensemble_zero aW exNone "A" rfl).1,
    (predict_empty_ensemble_zero aW exNone "A" rfl).2⟩

end ml
